import Mathlib

/-!
Shallow embedding of the image-conversion core of this repository
(files `Implementierung/modules/brightness_contrast.c`,
`Implementierung/modules/brightness_contrast_sse.c`,
`Implementierung/modules/util.c`).

Modelling conventions:
* C `float` / `double` arithmetic is modelled by exact rational arithmetic (`ℚ`);
  machine integers are `ℕ` / `ℤ` with an explicit `% 2 ^ w` wherever the C code
  can wrap (the `uint16_t` coefficients, the 16-bit SIMD lanes, the `int16_t`
  intermediates, and the `uint8_t` stores).
* the RGB input buffer is a function `ℕ → ℕ` giving the byte at each index
  (pixel `i` has its channels at `3*i`, `3*i+1`, `3*i+2`); the grayscale output
  buffer is a function `ℕ → ℕ` (only the indices `< width*height` that the C
  code writes are meaningful).
* `contrast : Option ℚ` - `none` models the NaN sentinel for "unset"
  (the `isnan(contrast)` test).
* the unbounded C loops (the `while (1)` of `convert_coeffs_to_max256` and the
  Heron iteration of `sqrtHeron`) are modelled with an explicit fuel parameter;
  a `none` result means the fuel ran out.
-/

namespace ImageConversion

/-- C cast of a nonnegative in-range `float` to `uint8_t`: truncation toward
zero, modular in the 8-bit store. -/
def castU8 (q : ℚ) : ℕ := (⌊q⌋).toNat % 256

/-- The store pattern `if (res > 255) 255 else if (res < 0) 0 else (uint8_t) res`
applied to a `float` value. -/
def clampStore (q : ℚ) : ℕ := if q > 255 then 255 else if q < 0 then 0 else castU8 q

/-- C cast of an integer to `uint8_t` (modular). -/
def u8cast (x : ℤ) : ℕ := (x % 256).toNat

/-- The store pattern `if (res > 255) 255 else if (res < 0) 0 else (uint8_t) res`
applied to an `int16_t` value. -/
def clampStoreI (x : ℤ) : ℕ := if x > 255 then 255 else if x < 0 then 0 else u8cast x

/-- Reinterpretation of an integer as a signed 16-bit value (wrap-around
semantics of `int16_t` stores and of `_mm_add_epi16`). -/
def toInt16 (x : ℤ) : ℤ := (x + 32768) % 65536 - 32768

/-- Low byte of a 16-bit lane: what the byte shuffles `mask_grey` / `mask_grey2`
extract when the two grey vectors are packed and stored. -/
def lowByte (n : ℕ) : ℕ := n % 256

/-- `uint16_t` increment (`coeffs[i]++`). -/
def u16inc (x : ℕ) : ℕ := (x + 1) % 65536

/-- `uint16_t` decrement (`coeffs[i]--`). -/
def u16dec (x : ℕ) : ℕ := (x + 65535) % 65536

/-- The three `uint16_t` coefficients handled by `convert_coeffs_to_max256`
(brightness_contrast_sse.c, lines 24-75). -/
structure CoeffState where
  c0 : ℕ
  c1 : ℕ
  c2 : ℕ
deriving DecidableEq

/-- `int total = coeffs[0] + coeffs[1] + coeffs[2]` (no overflow: three
`uint16_t` values fit an `int`). -/
def coeffTotal (s : CoeffState) : ℕ := s.c0 + s.c1 + s.c2

/-- One iteration of the adjustment loop body of `convert_coeffs_to_max256`
(the `else` branch of lines 37-72).  Note that the source tests the float input
sum `sum = a + b + c` against 256 (`if (sum < 256)`), not the integer
coefficient total. -/
def coeffStep (a b c : ℚ) (s : CoeffState) : CoeffState :=
  let sum := a + b + c
  let ad := 256 * a / sum - (s.c0 : ℚ)
  let bd := 256 * b / sum - (s.c1 : ℚ)
  let cd := 256 * c / sum - (s.c2 : ℚ)
  if sum < 256 then
    if ad > bd then
      (if ad > cd then ⟨u16inc s.c0, s.c1, s.c2⟩ else ⟨s.c0, s.c1, u16inc s.c2⟩)
    else
      (if bd > cd then ⟨s.c0, u16inc s.c1, s.c2⟩ else ⟨s.c0, s.c1, u16inc s.c2⟩)
  else
    if ad < bd then
      (if ad < cd then ⟨u16dec s.c0, s.c1, s.c2⟩ else ⟨s.c0, s.c1, u16dec s.c2⟩)
    else
      (if bd < cd then ⟨s.c0, u16dec s.c1, s.c2⟩ else ⟨s.c0, s.c1, u16dec s.c2⟩)

/-- The `while (1)` adjustment loop of `convert_coeffs_to_max256`, with fuel
(the C loop is unbounded). -/
def coeffLoop (a b c : ℚ) : ℕ → CoeffState → Option CoeffState
  | 0, _ => none
  | fuel + 1, s =>
      if coeffTotal s = 256 then some s else coeffLoop a b c fuel (coeffStep a b c s)

/-- The initial truncated coefficients `coeffs[i] = 256 * (x / sum)`
(float computation cast to `uint16_t`). -/
def initCoeffs (a b c : ℚ) : CoeffState :=
  ⟨(⌊256 * (a / (a + b + c))⌋).toNat % 65536,
   (⌊256 * (b / (a + b + c))⌋).toNat % 65536,
   (⌊256 * (c / (a + b + c))⌋).toNat % 65536⟩

/-- Fuel used by the model for the unbounded adjustment loop. -/
def convFuel : ℕ := 131072

/-- Model of `convert_coeffs_to_max256` (brightness_contrast_sse.c, lines
24-75); `none` means the fuel ran out. -/
def convert_coeffs_to_max256 (a b c : ℚ) : Option CoeffState :=
  coeffLoop a b c convFuel (initCoeffs a b c)

/-- The normalized weighted grayscale value of pixel `i` as computed by
`brightness_contrast_V1` after the in-place normalisation `a /= sum` etc.:
`a * img[i*3] + b * img[i*3+1] + c * img[i*3+2]` with normalized coefficients. -/
def grayQnorm (img : ℕ → ℕ) (a b c : ℚ) (i : ℕ) : ℚ :=
  a / (a + b + c) * img (3 * i) + b / (a + b + c) * img (3 * i + 1)
    + c / (a + b + c) * img (3 * i + 2)

/-- Stored grayscale byte of the scalar strategy: the body of V1 Case 0
(`result[i] = (uint8_t) res`).  This is also the pure weighted grayscale
reduction of the specification. -/
def grayPixel (img : ℕ → ℕ) (a b c : ℚ) (i : ℕ) : ℕ := castU8 (grayQnorm img a b c i)

/-- V1 Case 1 body: fused grayscale + brightness with a clamping store
(brightness_contrast.c, lines 56-67). -/
def v1GrayBright (img : ℕ → ℕ) (a b c : ℚ) (br : ℤ) (i : ℕ) : ℕ :=
  clampStore (grayQnorm img a b c i + (br : ℚ))

/-- V1 intermediate (brightness-stage) buffer used by the contrast cases
(brightness_contrast.c, lines 73-95). -/
def v1Inter (img : ℕ → ℕ) (a b c : ℚ) (br : ℤ) (i : ℕ) : ℕ :=
  if br = 0 then grayPixel img a b c i else v1GrayBright img a b c br i

/-- Integer sum accumulated into `mean` by V1's first pass: the value added per
pixel is exactly the stored byte in every branch of the source. -/
def v1MeanSum (img : ℕ → ℕ) (a b c : ℚ) (br : ℤ) (wh : ℕ) : ℕ :=
  ∑ i ∈ Finset.range wh, v1Inter img a b c br i

/-- `mean /= wh` (exact in `ℚ`). -/
def v1Mean (img : ℕ → ℕ) (a b c : ℚ) (br : ℤ) (wh : ℕ) : ℚ :=
  (v1MeanSum img a b c br wh : ℚ) / wh

/-- V1 second pass: `var += (result[i] - mean) * (result[i] - mean)` then
`var /= wh`. -/
def v1Var (img : ℕ → ℕ) (a b c : ℚ) (br : ℤ) (wh : ℕ) : ℚ :=
  (∑ i ∈ Finset.range wh,
      ((v1Inter img a b c br i : ℚ) - v1Mean img a b c br wh)
        * ((v1Inter img a b c br i : ℚ) - v1Mean img a b c br wh)) / wh

/-- The Heron iteration `while (x != x0) { x0 = x; x = (x + n/x) / 2; }` of
`sqrtHeron` (util.c, lines 195-210), with fuel: on exact rationals the float
fixed point is never reached for non-square inputs, so the model cuts off. -/
def sqrtHeronGo (n : ℚ) : ℕ → ℚ → ℚ → Option ℚ
  | 0, _, _ => none
  | fuel + 1, x, x0 => if x = x0 then some x else sqrtHeronGo n fuel ((x + n / x) / 2) x

/-- Fuel for the Heron iteration model. -/
def sqrtFuel : ℕ := 1000

/-- Model of `sqrtHeron` (util.c): negative input returns NaN (modelled `none`,
which also covers fuel exhaustion), zero returns zero, positive input iterates
from `(n + 1) / 2`. -/
def sqrtHeron (n : ℚ) : Option ℚ :=
  if n < 0 then none
  else if n = 0 then some 0
  else sqrtHeronGo n sqrtFuel ((n + 1) / 2) 0

/-- The `kstd` computation shared verbatim by the three strategies:
`kstd = 0` when `var == 0`, otherwise `contrast / sqrtHeron(var)`.  A NaN from
`sqrtHeron` makes `kstd` NaN, which the `isnan || isinf` guard turns into
failure - modelled by propagating `none`.  (On exact rationals the division
itself cannot produce a NaN or an infinity.) -/
def contrastKstd (contrast varq : ℚ) : Option ℚ :=
  if varq = 0 then some 0
  else (sqrtHeron varq).map fun s => contrast / s

/-- One entry of the 256-entry contrast lookup table:
`res = kstd * i + summand` followed by the clamping store. -/
def lookupTbl (kstd summand : ℚ) (v : ℕ) : ℕ := clampStore (kstd * v + summand)

/-- Model of `brightness_contrast_V1` (brightness_contrast.c, lines 32-137).
`some f` is success (`return 1`) with output buffer `f`; `none` is the
"computation for contrast failed" path (`return 0`). -/
def brightness_contrast_V1 (img : ℕ → ℕ) (width height : ℕ) (a b c : ℚ)
    (brightness : ℤ) (contrast : Option ℚ) : Option (ℕ → ℕ) :=
  let wh := width * height
  match contrast with
  | none =>
      if brightness = 0 then some fun i => grayPixel img a b c i
      else some fun i => v1GrayBright img a b c brightness i
  | some ct =>
      match contrastKstd ct (v1Var img a b c brightness wh) with
      | none => none
      | some kstd =>
          some fun i =>
            lookupTbl kstd ((1 - kstd) * v1Mean img a b c brightness wh)
              (v1Inter img a b c brightness i)

/-- Output byte `i` of `brightness_contrast_V1` (`none` when the call fails). -/
def v1Pixel (img : ℕ → ℕ) (width height : ℕ) (a b c : ℚ) (brightness : ℤ)
    (contrast : Option ℚ) (i : ℕ) : Option ℕ :=
  (brightness_contrast_V1 img width height a b c brightness contrast).map fun f => f i

/-- V2 grayscale pass body (brightness_contrast.c, lines 168-172):
`res = (a*r + b*g + c*b) / (a + b + c)` stored truncated. -/
def v2Gray (img : ℕ → ℕ) (a b c : ℚ) (i : ℕ) : ℕ :=
  castU8 ((a * img (3 * i) + b * img (3 * i + 1) + c * img (3 * i + 2)) / (a + b + c))

/-- V2 buffer after the (separate) brightness pass (lines 175-186): skipped when
`brightness` is zero, otherwise `res = result[i] + brightness` with a clamping
store. -/
def v2Bright (img : ℕ → ℕ) (a b c : ℚ) (br : ℤ) (i : ℕ) : ℕ :=
  if br = 0 then v2Gray img a b c i
  else clampStore ((v2Gray img a b c i : ℚ) + (br : ℚ))

/-- V2 `mean` accumulation (lines 190-193). -/
def v2MeanSum (img : ℕ → ℕ) (a b c : ℚ) (br : ℤ) (wh : ℕ) : ℕ :=
  ∑ i ∈ Finset.range wh, v2Bright img a b c br i

/-- `mean /= wh` for V2. -/
def v2Mean (img : ℕ → ℕ) (a b c : ℚ) (br : ℤ) (wh : ℕ) : ℚ :=
  (v2MeanSum img a b c br wh : ℚ) / wh

/-- V2 variance pass (lines 196-199). -/
def v2Var (img : ℕ → ℕ) (a b c : ℚ) (br : ℤ) (wh : ℕ) : ℚ :=
  (∑ i ∈ Finset.range wh,
      ((v2Bright img a b c br i : ℚ) - v2Mean img a b c br wh)
        * ((v2Bright img a b c br i : ℚ) - v2Mean img a b c br wh)) / wh

/-- Model of `brightness_contrast_V2` (brightness_contrast.c, lines 156-228);
V2 remaps per pixel with `res = kstd * result[i] + (1 - kstd) * mean` instead of
a lookup table. -/
def brightness_contrast_V2 (img : ℕ → ℕ) (width height : ℕ) (a b c : ℚ)
    (brightness : ℤ) (contrast : Option ℚ) : Option (ℕ → ℕ) :=
  let wh := width * height
  match contrast with
  | none => some fun i => v2Bright img a b c brightness i
  | some ct =>
      match contrastKstd ct (v2Var img a b c brightness wh) with
      | none => none
      | some kstd =>
          some fun i =>
            clampStore (kstd * (v2Bright img a b c brightness i : ℚ)
              + (1 - kstd) * v2Mean img a b c brightness wh)

/-- Output byte `i` of `brightness_contrast_V2`. -/
def v2Pixel (img : ℕ → ℕ) (width height : ℕ) (a b c : ℚ) (brightness : ℤ)
    (contrast : Option ℚ) (i : ℕ) : Option ℕ :=
  (brightness_contrast_V2 img width height a b c brightness contrast).map fun f => f i

/-- First pixel index after the SIMD region: `wh - (wh % 16)`. -/
def simdEnd (wh : ℕ) : ℕ := wh - wh % 16

/-- 16-bit SIMD grayscale lane of pixel `i` (load_and_convert_to_grey16):
`_mm_mullo_epi16` keeps the low 16 bits of each product, `_mm_add_epi16` wraps
mod 2^16, `_mm_srli_epi16(.., 8)` shifts the 16-bit lane right by 8. -/
def v0GraySimd (img : ℕ → ℕ) (w : CoeffState) (i : ℕ) : ℕ :=
  (((w.c0 * img (3 * i)) % 65536 + (w.c1 * img (3 * i + 1)) % 65536) % 65536
      + (w.c2 * img (3 * i + 2)) % 65536) % 65536 / 256

/-- 16-bit lane value after the optional brightness add
(`_mm_add_epi16` with the brightness vector, signed wrap) and the
`_mm_min_epi16(max, ..)` / `_mm_max_epi16(zero, ..)` clamp; this value is both
accumulated into `mean_vector` and stored. -/
def v0Lane (img : ℕ → ℕ) (w : CoeffState) (br : ℤ) (i : ℕ) : ℕ :=
  if br = 0 then v0GraySimd img w i
  else (max 0 (min 255 (toInt16 ((v0GraySimd img w i : ℤ) + br)))).toNat

/-- Scalar remainder grayscale
`res = (coeffs[0]*r + coeffs[1]*g + coeffs[2]*b) / 256` (int arithmetic,
then stored in an `int16_t`). -/
def v0GrayRem (img : ℕ → ℕ) (w : CoeffState) (i : ℕ) : ℤ :=
  toInt16 ((w.c0 * img (3 * i) + w.c1 * img (3 * i + 1) + w.c2 * img (3 * i + 2)) / 256 : ℕ)

/-- Stored byte of the scalar remainder path (with `res += brightness` on the
`int16_t` when brightness is set, then the clamping store). -/
def v0RemStore (img : ℕ → ℕ) (w : CoeffState) (br : ℤ) (i : ℕ) : ℕ :=
  if br = 0 then u8cast (v0GrayRem img w i)
  else clampStoreI (toInt16 (v0GrayRem img w i + br))

/-- The buffer written by V0 before any contrast remap (identical for the
contrast-unset output and the contrast-path intermediate): SIMD lanes for the
blocks of 16, scalar code for the remainder. -/
def v0Inter (img : ℕ → ℕ) (w : CoeffState) (br : ℤ) (wh : ℕ) (i : ℕ) : ℕ :=
  if i < simdEnd wh then lowByte (v0Lane img w br i) else v0RemStore img w br i

/-- `_mm_add_epi16` on eight 16-bit lanes. -/
def laneAdd (u v : Fin 8 → ℕ) : Fin 8 → ℕ := fun j => (u j + v j) % 65536

/-- `_mm_srli_si128(v, 8)` viewed on eight 16-bit lanes. -/
def shiftLanes4 (v : Fin 8 → ℕ) : Fin 8 → ℕ := ![v 4, v 5, v 6, v 7, 0, 0, 0, 0]

/-- `_mm_srli_si128(v, 4)` viewed on eight 16-bit lanes. -/
def shiftLanes2 (v : Fin 8 → ℕ) : Fin 8 → ℕ := ![v 2, v 3, v 4, v 5, v 6, v 7, 0, 0]

/-- `_mm_srli_si128(v, 2)` viewed on eight 16-bit lanes. -/
def shiftLanes1 (v : Fin 8 → ℕ) : Fin 8 → ℕ := ![v 1, v 2, v 3, v 4, v 5, v 6, v 7, 0]

/-- Model of `sum_mm_epi16` (brightness_contrast_sse.c, lines 86-92): three
shift-and-add rounds, then `_mm_extract_epi16(sum3, 0)`. -/
def sum_mm_epi16 (v : Fin 8 → ℕ) : ℕ :=
  let s1 := laneAdd v (shiftLanes4 v)
  let s2 := laneAdd s1 (shiftLanes2 s1)
  let s3 := laneAdd s2 (shiftLanes1 s2)
  s3 0

/-- One SIMD block of V0's mean accumulation, `g` being the 16-bit lane value
of each pixel: lane `j` of `mean_vector` receives pixel `16k + j` (from grey1)
and pixel `16k + 8 + j` (from grey2); when the pixel index `16k` satisfies
`i % 128 == 0` the vector is flushed into the wide accumulator and reset. -/
def meanBlockStep (g : ℕ → ℕ) (k : ℕ) (st : ℕ × (Fin 8 → ℕ)) : ℕ × (Fin 8 → ℕ) :=
  let lanes := fun j : Fin 8 =>
    ((st.2 j + g (16 * k + (j : ℕ))) % 65536 + g (16 * k + 8 + (j : ℕ))) % 65536
  if (16 * k) % 128 = 0 then (st.1 + sum_mm_epi16 lanes, fun _ => 0) else (st.1, lanes)

/-- State of `(mean, mean_vector)` after the first `k` SIMD blocks. -/
def meanAccum (g : ℕ → ℕ) : ℕ → ℕ × (Fin 8 → ℕ)
  | 0 => (0, fun _ => 0)
  | k + 1 => meanBlockStep g k (meanAccum g k)

/-- Total mean sum contributed by the SIMD phase over `nb` blocks: the loop
plus the trailing `mean += sum_mm_epi16(mean_vector)`. -/
def v0MeanSumSimd (g : ℕ → ℕ) (nb : ℕ) : ℕ :=
  (meanAccum g nb).1 + sum_mm_epi16 (meanAccum g nb).2

/-- Remainder-pixel contribution to V0's `mean`: `mean += res` without
brightness; with brightness, `255` on overflow, nothing (`0`) on underflow,
`res` otherwise - exactly the stored byte in every branch. -/
def v0RemContrib (img : ℕ → ℕ) (w : CoeffState) (br : ℤ) (i : ℕ) : ℤ :=
  if br = 0 then v0GrayRem img w i
  else
    let res := toInt16 (v0GrayRem img w i + br)
    if res > 255 then 255 else if res < 0 then 0 else res

/-- V0's complete `mean` sum before the division. -/
def v0MeanSum (img : ℕ → ℕ) (w : CoeffState) (br : ℤ) (wh : ℕ) : ℤ :=
  (v0MeanSumSimd (fun i => v0Lane img w br i) (simdEnd wh / 16) : ℤ)
    + ∑ i ∈ Finset.Ico (simdEnd wh) wh, v0RemContrib img w br i

/-- `mean /= wh` for V0. -/
def v0Mean (img : ℕ → ℕ) (w : CoeffState) (br : ℤ) (wh : ℕ) : ℚ :=
  (v0MeanSum img w br wh : ℚ) / wh

/-- V0 variance: the float SIMD pass plus the scalar remainder accumulate
`(result[i] - mean)^2` over the whole buffer; in exact arithmetic the lane
split and accumulation order do not matter, so the model uses a single sum. -/
def v0Var (img : ℕ → ℕ) (w : CoeffState) (br : ℤ) (wh : ℕ) : ℚ :=
  (∑ i ∈ Finset.range wh,
      ((v0Inter img w br wh i : ℚ) - v0Mean img w br wh)
        * ((v0Inter img w br wh i : ℚ) - v0Mean img w br wh)) / wh

/-- Model of `brightness_contrast_V0` (brightness_contrast_sse.c, lines
175-440).  The outer `none` also covers the model's fuel cutoff for the
coefficient loop (in C that loop would simply still be running). -/
def brightness_contrast_V0 (img : ℕ → ℕ) (width height : ℕ) (a b c : ℚ)
    (brightness : ℤ) (contrast : Option ℚ) : Option (ℕ → ℕ) :=
  match convert_coeffs_to_max256 a b c with
  | none => none
  | some w =>
      let wh := width * height
      match contrast with
      | none => some fun i => v0Inter img w brightness wh i
      | some ct =>
          match contrastKstd ct (v0Var img w brightness wh) with
          | none => none
          | some kstd =>
              some fun i =>
                lookupTbl kstd ((1 - kstd) * v0Mean img w brightness wh)
                  (v0Inter img w brightness wh i)

/-- Output byte `i` of `brightness_contrast_V0`. -/
def v0Pixel (img : ℕ → ℕ) (width height : ℕ) (a b c : ℚ) (brightness : ℤ)
    (contrast : Option ℚ) (i : ℕ) : Option ℕ :=
  (brightness_contrast_V0 img width height a b c brightness contrast).map fun f => f i

/-- A 1x1 image whose single pixel is (255, 255, 0). -/
def imgC1 : ℕ → ℕ := fun n => if n = 0 then 255 else if n = 1 then 255 else 0

/-- A 2x1 image with pixels (255, 0, 0) and (0, 0, 0). -/
def imgC6 : ℕ → ℕ := fun n => if n = 0 then 255 else 0

/-- A 2x1 uniform image, every channel byte 7. -/
def imgC5 : ℕ → ℕ := fun _ => 7

/-- Unfolding equation of the fuelled loop, stated for rewriting with literal
fuel values. -/
lemma coeffLoop_succ (a b c : ℚ) (f : ℕ) (s : CoeffState) :
    coeffLoop a b c (f + 1) s =
      if coeffTotal s = 256 then some s else coeffLoop a b c f (coeffStep a b c s) := rfl

lemma floor_256_div_3 : ⌊(256 : ℚ) / 3⌋ = 85 := by
  rw [Int.floor_eq_iff]
  norm_num

lemma initCoeffs_ones : initCoeffs 1 1 1 = ⟨85, 85, 85⟩ := by
  have h : (256 : ℚ) * (1 / (1 + 1 + 1)) = 256 / 3 := by norm_num
  simp only [initCoeffs, h, floor_256_div_3]
  decide

lemma coeffStep_ones : coeffStep 1 1 1 ⟨85, 85, 85⟩ = ⟨85, 85, 86⟩ := by
  simp only [coeffStep, u16inc]
  norm_num

lemma convert_ones : convert_coeffs_to_max256 1 1 1 = some ⟨85, 85, 86⟩ := by
  rw [convert_coeffs_to_max256, initCoeffs_ones]
  rw [show convFuel = 131071 + 1 by rfl, coeffLoop_succ,
    if_neg (by simp [coeffTotal]), coeffStep_ones,
    show (131071 : ℕ) = 131070 + 1 by norm_num, coeffLoop_succ,
    if_pos (by simp [coeffTotal])]

lemma initCoeffs_100 : initCoeffs 100 100 100 = ⟨85, 85, 85⟩ := by
  have h : (256 : ℚ) * (100 / (100 + 100 + 100)) = 256 / 3 := by norm_num
  simp only [initCoeffs, h, floor_256_div_3]
  decide

lemma coeffStep_100_diag (k : ℕ) (hk : k ≤ 84) :
    coeffStep 100 100 100 ⟨k + 1, k + 1, k + 1⟩ = ⟨k + 1, k + 1, k⟩ := by
  norm_num [coeffStep, sub_lt_sub_iff_left, u16dec, CoeffState.mk.injEq]
  omega

lemma coeffStep_100_decB (k : ℕ) (hk : k ≤ 84) :
    coeffStep 100 100 100 ⟨k + 1, k + 1, k⟩ = ⟨k + 1, k, k⟩ := by
  norm_num [coeffStep, sub_lt_sub_iff_left, u16dec, CoeffState.mk.injEq, lt_add_one]
  omega

lemma coeffStep_100_decA (k : ℕ) (hk : k ≤ 84) :
    coeffStep 100 100 100 ⟨k + 1, k, k⟩ = ⟨k, k, k⟩ := by
  norm_num [coeffStep, sub_lt_sub_iff_left, u16dec, CoeffState.mk.injEq, lt_add_one]
  omega

lemma coeffStep_100_zero : coeffStep 100 100 100 ⟨0, 0, 0⟩ = ⟨0, 0, 65535⟩ := by
  norm_num [coeffStep, sub_lt_sub_iff_left, u16dec, CoeffState.mk.injEq]

lemma coeffStep_100_t (d : ℕ) (hd : d ≤ 65278) :
    coeffStep 100 100 100 ⟨0, 0, 256 + (d + 1)⟩ = ⟨0, 0, 256 + d⟩ := by
  norm_num [coeffStep, sub_lt_sub_iff_left, u16dec, CoeffState.mk.injEq]
  rw [if_neg (by
    have hq : (0 : ℚ) ≤ (d : ℚ) := Nat.cast_nonneg d
    linarith)]
  simp only [CoeffState.mk.injEq, true_and]
  omega

/-- With inputs (100,100,100) the decrement branch walks the diagonal down:
three loop iterations take `(k,k,k)` to `(k-1,k-1,k-1)`. -/
lemma coeffLoop_100_diag : ∀ k, k ≤ 85 → ∀ f,
    coeffLoop 100 100 100 (3 * k + f) ⟨k, k, k⟩ = coeffLoop 100 100 100 f ⟨0, 0, 0⟩
  | 0, _, f => by norm_num
  | k + 1, hk, f => by
      rw [show 3 * (k + 1) + f = ((3 * k + f) + 1 + 1) + 1 by ring, coeffLoop_succ,
        if_neg (by simp only [coeffTotal]; omega), coeffStep_100_diag k (by omega),
        coeffLoop_succ, if_neg (by simp only [coeffTotal]; omega),
        coeffStep_100_decB k (by omega),
        coeffLoop_succ, if_neg (by simp only [coeffTotal]; omega),
        coeffStep_100_decA k (by omega)]
      exact coeffLoop_100_diag k (by omega) f

/-- With inputs (100,100,100) and state `(0,0,256+d)` the loop decrements the
third coefficient down to 256 and then returns. -/
lemma coeffLoop_100_tail : ∀ d, d ≤ 65279 →
    coeffLoop 100 100 100 (d + 1) ⟨0, 0, 256 + d⟩ = some ⟨0, 0, 256⟩
  | 0, _ => by rw [coeffLoop_succ, if_pos (by simp [coeffTotal])]
  | d + 1, hd => by
      rw [coeffLoop_succ, if_neg (by simp only [coeffTotal]; omega),
        coeffStep_100_t d (by omega)]
      exact coeffLoop_100_tail d (by omega)

/-- More fuel cannot change a `some` result of the loop. -/
lemma coeffLoop_mono (a b c : ℚ) : ∀ f g s r, coeffLoop a b c f s = some r → f ≤ g →
    coeffLoop a b c g s = some r
  | 0, _, s, r, h, _ => by simp [coeffLoop] at h
  | f + 1, g, s, r, h, hfg => by
      obtain ⟨g', rfl⟩ : ∃ g', g = g' + 1 := ⟨g - 1, by omega⟩
      rw [coeffLoop_succ] at h ⊢
      by_cases ht : coeffTotal s = 256
      · rwa [if_pos ht] at h ⊢
      · rw [if_neg ht] at h ⊢
        exact coeffLoop_mono a b c f g' _ r h (by omega)

/-- On inputs (100,100,100) the adjustment loop runs through the `uint16_t`
wrap-around and returns the degenerate weights (0, 0, 256) after 65535
iterations. -/
lemma convert_100 : convert_coeffs_to_max256 100 100 100 = some ⟨0, 0, 256⟩ := by
  have h1 : coeffLoop 100 100 100 65536 ⟨85, 85, 85⟩ = coeffLoop 100 100 100 65281 ⟨0, 0, 0⟩ := by
    have h := coeffLoop_100_diag 85 (le_refl 85) 65281
    norm_num at h
    exact h
  have h2 : coeffLoop 100 100 100 65281 ⟨0, 0, 0⟩
      = coeffLoop 100 100 100 65280 ⟨0, 0, 65535⟩ := by
    rw [show (65281 : ℕ) = 65280 + 1 by norm_num, coeffLoop_succ,
      if_neg (by simp [coeffTotal]), coeffStep_100_zero]
  have h3 : coeffLoop 100 100 100 65280 ⟨0, 0, 65535⟩ = some ⟨0, 0, 256⟩ := by
    have h := coeffLoop_100_tail 65279 (by norm_num)
    norm_num at h
    exact h
  unfold convert_coeffs_to_max256
  rw [initCoeffs_100]
  exact coeffLoop_mono 100 100 100 65536 convFuel ⟨85, 85, 85⟩ ⟨0, 0, 256⟩
    (h1.trans (h2.trans h3)) (by norm_num [convFuel])

/-- C2: the normalization claim fails on the code.  On the valid input
(a,b,c) = (100,100,100) (non-negative, positive sum) the function returns the
weights (0, 0, 256): they do sum to 256, but the first weight is 256/3 > 85
away from its ideal real value 256*a/(a+b+c) = 256/3, far beyond the claimed
distance of 1.  The cause is that the loop compares the float input sum
(300) instead of the integer coefficient total against 256. -/
theorem claim_C2_normalization_violated :
    convert_coeffs_to_max256 100 100 100 = some ⟨0, 0, 256⟩ ∧
    (0 : ℕ) + 0 + 256 = 256 ∧
    1 < |256 * (100 : ℚ) / (100 + 100 + 100) - ((0 : ℕ) : ℚ)| := by
  refine ⟨convert_100, rfl, ?_⟩
  rw [abs_of_nonneg (by norm_num)]
  norm_num

/-- C3: the claimed 256-iteration termination bound fails on the code.  On the
valid input (100,100,100) the loop is still running after 257 iterations
(fuel 257 of the model is exhausted with no return): it needs 65535 iterations
to terminate. -/
theorem claim_C3_termination_bound_violated :
    coeffLoop 100 100 100 257 (initCoeffs 100 100 100) = none := by
  rw [initCoeffs_100]
  have h1 : coeffLoop 100 100 100 257 ⟨85, 85, 85⟩ = coeffLoop 100 100 100 2 ⟨0, 0, 0⟩ := by
    have h := coeffLoop_100_diag 85 (le_refl 85) 2
    norm_num at h
    exact h
  rw [h1, show (2 : ℕ) = 1 + 1 by norm_num, coeffLoop_succ,
    if_neg (by simp [coeffTotal]), coeffStep_100_zero,
    coeffLoop_succ, if_neg (by simp [coeffTotal])]
  rfl

/-- C1: strategy equivalence fails on the code.  For the valid input of a 1x1
image with pixel (255,255,0), weights (100,100,100) (non-negative, sum 300 > 0),
brightness 0 and contrast unset, the scalar strategies V1 and V2 output the
byte 170 while the vectorized V0 outputs 0 (its integer weights being the
degenerate (0,0,256) of `convert_100`): the outputs differ by 170, not at
most 1. -/
theorem claim_C1_strategy_equivalence_violated :
    v0Pixel imgC1 1 1 100 100 100 0 none 0 = some 0 ∧
    v1Pixel imgC1 1 1 100 100 100 0 none 0 = some 170 ∧
    v2Pixel imgC1 1 1 100 100 100 0 none 0 = some 170 ∧
    ¬((170 : ℤ) - 0 ≤ 1) := by
  refine ⟨?_, ?_, ?_, by decide⟩
  · rw [v0Pixel, brightness_contrast_V0, convert_100]
    decide
  · rw [v1Pixel, brightness_contrast_V1]
    norm_num [grayPixel, grayQnorm, castU8, imgC1]
    decide
  · rw [v2Pixel, brightness_contrast_V2]
    norm_num [v2Bright, v2Gray, castU8, imgC1]
    decide

/-- C6: for the 2x1 image with pixels (255,0,0) and (0,0,0), weights (1,1,1),
brightness 0 and contrast unset, the integer weights become (85,85,86) with
total 256, the scalar strategies V1 and V2 output [85, 0], the vectorized
strategy V0 outputs [84, 0], and the two disagreeing bytes differ by at
most 1. -/
theorem claim_C6_concrete_scenario :
    convert_coeffs_to_max256 1 1 1 = some ⟨85, 85, 86⟩ ∧
    v1Pixel imgC6 2 1 1 1 1 0 none 0 = some 85 ∧
    v1Pixel imgC6 2 1 1 1 1 0 none 1 = some 0 ∧
    v2Pixel imgC6 2 1 1 1 1 0 none 0 = some 85 ∧
    v2Pixel imgC6 2 1 1 1 1 0 none 1 = some 0 ∧
    v0Pixel imgC6 2 1 1 1 1 0 none 0 = some 84 ∧
    v0Pixel imgC6 2 1 1 1 1 0 none 1 = some 0 ∧
    (85 - 84 : ℤ).natAbs ≤ 1 := by
  refine ⟨convert_ones, ?_, ?_, ?_, ?_, ?_, ?_, by decide⟩
  · rw [v1Pixel, brightness_contrast_V1]
    norm_num [grayPixel, grayQnorm, castU8, imgC6]
    decide
  · rw [v1Pixel, brightness_contrast_V1]
    norm_num [grayPixel, grayQnorm, castU8, imgC6]
  · rw [v2Pixel, brightness_contrast_V2]
    norm_num [v2Bright, v2Gray, castU8, imgC6]
    decide
  · rw [v2Pixel, brightness_contrast_V2]
    norm_num [v2Bright, v2Gray, castU8, imgC6]
  · rw [v0Pixel, brightness_contrast_V0, convert_ones]
    decide
  · rw [v0Pixel, brightness_contrast_V0, convert_ones]
    decide

lemma grayQnorm_eq_div (img : ℕ → ℕ) (a b c : ℚ) (i : ℕ) :
    grayQnorm img a b c i
      = (a * img (3 * i) + b * img (3 * i + 1) + c * img (3 * i + 2)) / (a + b + c) := by
  unfold grayQnorm
  ring

lemma grayQnorm_nonneg (img : ℕ → ℕ) (a b c : ℚ) (ha : 0 ≤ a) (hb : 0 ≤ b) (hc : 0 ≤ c)
    (hs : 0 < a + b + c) (i : ℕ) : 0 ≤ grayQnorm img a b c i := by
  rw [grayQnorm_eq_div]
  apply div_nonneg _ hs.le
  have h1 : (0 : ℚ) ≤ a * img (3 * i) := mul_nonneg ha (Nat.cast_nonneg _)
  have h2 : (0 : ℚ) ≤ b * img (3 * i + 1) := mul_nonneg hb (Nat.cast_nonneg _)
  have h3 : (0 : ℚ) ≤ c * img (3 * i + 2) := mul_nonneg hc (Nat.cast_nonneg _)
  linarith

lemma grayQnorm_le_255 (img : ℕ → ℕ) (himg : ∀ n, img n ≤ 255) (a b c : ℚ)
    (ha : 0 ≤ a) (hb : 0 ≤ b) (hc : 0 ≤ c) (hs : 0 < a + b + c) (i : ℕ) :
    grayQnorm img a b c i ≤ 255 := by
  rw [grayQnorm_eq_div, div_le_iff₀ hs]
  have h1 : a * img (3 * i) ≤ a * 255 :=
    mul_le_mul_of_nonneg_left (by exact_mod_cast himg (3 * i)) ha
  have h2 : b * img (3 * i + 1) ≤ b * 255 :=
    mul_le_mul_of_nonneg_left (by exact_mod_cast himg (3 * i + 1)) hb
  have h3 : c * img (3 * i + 2) ≤ c * 255 :=
    mul_le_mul_of_nonneg_left (by exact_mod_cast himg (3 * i + 2)) hc
  nlinarith

lemma grayPixel_eq_floor (img : ℕ → ℕ) (himg : ∀ n, img n ≤ 255) (a b c : ℚ)
    (ha : 0 ≤ a) (hb : 0 ≤ b) (hc : 0 ≤ c) (hs : 0 < a + b + c) (i : ℕ) :
    grayPixel img a b c i = (⌊grayQnorm img a b c i⌋).toNat
      ∧ grayPixel img a b c i ≤ 255 := by
  have h0 : 0 ≤ ⌊grayQnorm img a b c i⌋ :=
    Int.floor_nonneg.mpr (grayQnorm_nonneg img a b c ha hb hc hs i)
  have h255 : ⌊grayQnorm img a b c i⌋ ≤ 255 := by
    have h := Int.floor_mono (grayQnorm_le_255 img himg a b c ha hb hc hs i)
    simpa using h
  unfold grayPixel castU8
  constructor
  · omega
  · omega

/-- C8: for channel bytes in [0,255] and non-negative weights with positive
sum, the normalized scalar weights sum to 1, the weighted sum per pixel lies in
[0, 256), the unguarded `uint8_t` cast stores exactly its floor, and the
stored byte is at most 255. -/
theorem claim_C8_range_safety (img : ℕ → ℕ) (himg : ∀ n, img n ≤ 255)
    (a b c : ℚ) (ha : 0 ≤ a) (hb : 0 ≤ b) (hc : 0 ≤ c) (hs : 0 < a + b + c) (i : ℕ) :
    a / (a + b + c) + b / (a + b + c) + c / (a + b + c) = 1 ∧
    0 ≤ grayQnorm img a b c i ∧ grayQnorm img a b c i < 256 ∧
    grayPixel img a b c i = (⌊grayQnorm img a b c i⌋).toNat ∧
    grayPixel img a b c i ≤ 255 := by
  obtain ⟨hf, hle⟩ := grayPixel_eq_floor img himg a b c ha hb hc hs i
  refine ⟨?_, grayQnorm_nonneg img a b c ha hb hc hs i, ?_, hf, hle⟩
  · rw [div_add_div_same, div_add_div_same, div_self hs.ne']
  · have h := grayQnorm_le_255 img himg a b c ha hb hc hs i
    linarith

/-- Witness for C8 at image `imgC5`, weights (3,2,5), pixel 0. -/
theorem claim_C8_witness :
    (3 : ℚ) / (3 + 2 + 5) + 2 / (3 + 2 + 5) + 5 / (3 + 2 + 5) = 1 ∧
    0 ≤ grayQnorm imgC5 3 2 5 0 ∧ grayQnorm imgC5 3 2 5 0 < 256 ∧
    grayPixel imgC5 3 2 5 0 = (⌊grayQnorm imgC5 3 2 5 0⌋).toNat ∧
    grayPixel imgC5 3 2 5 0 ≤ 255 :=
  claim_C8_range_safety imgC5 (fun n => by norm_num [imgC5]) 3 2 5
    (by norm_num) (by norm_num) (by norm_num) (by norm_num) 0

lemma clampStore_intCast (x : ℤ) : clampStore (x : ℚ) = (min 255 (max 0 x)).toNat := by
  unfold clampStore castU8
  split_ifs with h1 h2
  · have hx : (255 : ℤ) < x := by exact_mod_cast h1
    omega
  · have hx : x < 0 := by exact_mod_cast h2
    omega
  · have hx1 : x ≤ 255 := by exact_mod_cast not_lt.mp h1
    have hx2 : 0 ≤ x := by exact_mod_cast not_lt.mp h2
    rw [Int.floor_intCast]
    omega

/-- The clamping store of `q + brightness` for real `q ≥ 0` agrees with the
integer clamp of `floor q + brightness`: this bridges V1's fused float
brightness add with the claim's `clamp(gray + brightness)` over the stored
grayscale byte. -/
lemma clampStore_add_int (q : ℚ) (hq : 0 ≤ q) (br : ℤ) :
    clampStore (q + (br : ℚ)) = (min 255 (max 0 (⌊q⌋ + br))).toNat := by
  have hfl : ⌊q + (br : ℚ)⌋ = ⌊q⌋ + br := Int.floor_add_int q br
  have h0 : 0 ≤ ⌊q⌋ := Int.floor_nonneg.mpr hq
  unfold clampStore castU8
  split_ifs with h1 h2
  · have h : (255 : ℤ) ≤ ⌊q⌋ + br := by
      rw [← hfl]
      exact Int.le_floor.mpr (by exact_mod_cast h1.le)
    omega
  · have h : ⌊q⌋ + br < 0 := by
      rw [← hfl]
      exact Int.floor_lt.mpr (by exact_mod_cast h2)
    omega
  · have hle : ⌊q⌋ + br ≤ 255 := by
      rw [← hfl]
      have h := Int.floor_mono (not_lt.mp h1)
      simpa using h
    have hge : 0 ≤ ⌊q⌋ + br := by
      rw [← hfl]
      exact Int.floor_nonneg.mpr (not_lt.mp h2)
    rw [hfl]
    omega

lemma v1GrayBright_clamp (img : ℕ → ℕ) (himg : ∀ n, img n ≤ 255) (a b c : ℚ)
    (ha : 0 ≤ a) (hb : 0 ≤ b) (hc : 0 ≤ c) (hs : 0 < a + b + c) (br : ℤ) (i : ℕ) :
    v1GrayBright img a b c br i
      = (min 255 (max 0 ((grayPixel img a b c i : ℤ) + br))).toNat := by
  have hq := grayQnorm_nonneg img a b c ha hb hc hs i
  obtain ⟨hf, hle⟩ := grayPixel_eq_floor img himg a b c ha hb hc hs i
  have hcast : (grayPixel img a b c i : ℤ) = ⌊grayQnorm img a b c i⌋ := by
    rw [hf]
    exact Int.toNat_of_nonneg (Int.floor_nonneg.mpr hq)
  unfold v1GrayBright
  rw [clampStore_add_int _ hq, hcast]

lemma v2Gray_eq_grayPixel (img : ℕ → ℕ) (a b c : ℚ) (i : ℕ) :
    v2Gray img a b c i = grayPixel img a b c i := by
  unfold v2Gray grayPixel
  rw [grayQnorm_eq_div]

/-- C7: the brightness stage contract.  (a) V2 writes
`clamp(gray + brightness, 0, 255)` of its stored grayscale byte;
(b) V1's fused float add writes the same clamp of its grayscale byte
(for valid channel bytes and weights); (c) with brightness 0 and contrast
unset, both scalar strategies output exactly the pure weighted grayscale
reduction. -/
theorem claim_C7_brightness_stage :
    (∀ (img : ℕ → ℕ) (a b c : ℚ) (br : ℤ) (i : ℕ), br ≠ 0 →
        v2Bright img a b c br i
          = (min 255 (max 0 ((v2Gray img a b c i : ℤ) + br))).toNat) ∧
    (∀ (img : ℕ → ℕ) (a b c : ℚ) (br : ℤ) (i : ℕ), (∀ n, img n ≤ 255) →
        0 ≤ a → 0 ≤ b → 0 ≤ c → 0 < a + b + c → br ≠ 0 →
        v1GrayBright img a b c br i
          = (min 255 (max 0 ((grayPixel img a b c i : ℤ) + br))).toNat) ∧
    (∀ (img : ℕ → ℕ) (a b c : ℚ) (w h : ℕ) (i : ℕ),
        v1Pixel img w h a b c 0 none i = some (grayPixel img a b c i) ∧
        v2Pixel img w h a b c 0 none i = some (grayPixel img a b c i)) := by
  refine ⟨?_, ?_, ?_⟩
  · intro img a b c br i hbr
    unfold v2Bright
    rw [if_neg hbr]
    have h : (v2Gray img a b c i : ℚ) + (br : ℚ)
        = (((v2Gray img a b c i : ℤ) + br : ℤ) : ℚ) := by
      push_cast
      ring
    rw [h, clampStore_intCast]
  · intro img a b c br i himg ha hb hc hs _
    exact v1GrayBright_clamp img himg a b c ha hb hc hs br i
  · intro img a b c w h i
    constructor
    · rw [v1Pixel, brightness_contrast_V1]
      simp
    · rw [v2Pixel, brightness_contrast_V2]
      simp [v2Bright, v2Gray_eq_grayPixel]

/-- Witness for C7: image `imgC5`, weights (1,1,1), brightness 30, pixel 0. -/
theorem claim_C7_witness :
    v2Bright imgC5 1 1 1 30 0 = (min 255 (max 0 ((v2Gray imgC5 1 1 1 0 : ℤ) + 30))).toNat ∧
    v1GrayBright imgC5 1 1 1 30 0
      = (min 255 (max 0 ((grayPixel imgC5 1 1 1 0 : ℤ) + 30))).toNat ∧
    (v1Pixel imgC5 2 1 1 1 1 0 none 0 = some (grayPixel imgC5 1 1 1 0) ∧
     v2Pixel imgC5 2 1 1 1 1 0 none 0 = some (grayPixel imgC5 1 1 1 0)) :=
  ⟨claim_C7_brightness_stage.1 imgC5 1 1 1 30 0 (by norm_num),
   claim_C7_brightness_stage.2.1 imgC5 1 1 1 30 0 (fun n => by norm_num [imgC5])
     (by norm_num) (by norm_num) (by norm_num) (by norm_num) (by norm_num),
   claim_C7_brightness_stage.2.2 imgC5 1 1 1 2 1 0⟩

lemma castU8_le_255 (q : ℚ) : castU8 q ≤ 255 := by
  unfold castU8
  omega

lemma clampStore_le_255 (q : ℚ) : clampStore q ≤ 255 := by
  unfold clampStore
  split_ifs
  · exact le_refl 255
  · exact Nat.zero_le 255
  · exact castU8_le_255 q

lemma v1Inter_le_255 (img : ℕ → ℕ) (a b c : ℚ) (br : ℤ) (i : ℕ) :
    v1Inter img a b c br i ≤ 255 := by
  unfold v1Inter v1GrayBright grayPixel
  split_ifs
  · exact castU8_le_255 _
  · exact clampStore_le_255 _

lemma clampStore_natCast (v : ℕ) (hv : v ≤ 255) : clampStore (v : ℚ) = v := by
  have h1 : ¬((v : ℚ) > 255) := by
    rw [not_lt]
    exact_mod_cast hv
  have h2 : ¬((v : ℚ) < 0) := not_lt.mpr (Nat.cast_nonneg v)
  unfold clampStore castU8
  rw [if_neg h1, if_neg h2, Int.floor_natCast]
  omega

/-- C5: whenever V1's computed variance is 0 and contrast is set to any value
in [-255,255], the rescale factor is 0, the offset `(1-k)*mean` is the mean,
the call succeeds, and every output byte equals the brightness-stage byte. -/
theorem claim_C5_variance_zero (img : ℕ → ℕ) (width height : ℕ) (a b c : ℚ)
    (br : ℤ) (ct : ℚ) (_hct1 : -255 ≤ ct) (_hct2 : ct ≤ 255)
    (hwh : 0 < width * height)
    (hvar : v1Var img a b c br (width * height) = 0) :
    contrastKstd ct (v1Var img a b c br (width * height)) = some 0 ∧
    (1 - (0 : ℚ)) * v1Mean img a b c br (width * height)
      = v1Mean img a b c br (width * height) ∧
    ∃ out, brightness_contrast_V1 img width height a b c br (some ct) = some out ∧
      ∀ i < width * height, out i = v1Inter img a b c br i := by
  have hk : contrastKstd ct (v1Var img a b c br (width * height)) = some 0 := by
    rw [hvar]
    unfold contrastKstd
    rw [if_pos rfl]
  refine ⟨hk, by ring, ?_⟩
  have hwhq : ((width * height : ℕ) : ℚ) ≠ 0 := by
    exact_mod_cast hwh.ne'
  have hsum : ∑ i ∈ Finset.range (width * height),
      ((v1Inter img a b c br i : ℚ) - v1Mean img a b c br (width * height))
        * ((v1Inter img a b c br i : ℚ) - v1Mean img a b c br (width * height)) = 0 := by
    have h := hvar
    unfold v1Var at h
    exact (div_eq_zero_iff.mp h).resolve_right hwhq
  have hall : ∀ i < width * height,
      (v1Inter img a b c br i : ℚ) = v1Mean img a b c br (width * height) := by
    intro i hi
    have h := (Finset.sum_eq_zero_iff_of_nonneg
      (fun j _ => mul_self_nonneg _)).mp hsum i (Finset.mem_range.mpr hi)
    have h2 := mul_self_eq_zero.mp h
    linarith [sub_eq_zero.mp h2]
  refine ⟨fun i => lookupTbl 0 ((1 - 0) * v1Mean img a b c br (width * height))
      (v1Inter img a b c br i), ?_, ?_⟩
  · simp only [brightness_contrast_V1, hk]
  · intro i hi
    show lookupTbl 0 ((1 - 0) * v1Mean img a b c br (width * height))
        (v1Inter img a b c br i) = v1Inter img a b c br i
    unfold lookupTbl
    have h255 := v1Inter_le_255 img a b c br i
    have heq : (0 : ℚ) * (v1Inter img a b c br i : ℚ)
        + (1 - 0) * v1Mean img a b c br (width * height)
        = (v1Inter img a b c br i : ℚ) := by
      rw [← hall i hi]
      ring
    rw [heq]
    exact clampStore_natCast _ h255

/-- Witness for C5: the 2x1 uniform image `imgC5`, weights (1,1,1),
brightness 5, contrast 100; the computed variance is 0. -/
theorem claim_C5_witness :
    contrastKstd 100 (v1Var imgC5 1 1 1 5 (2 * 1)) = some 0 ∧
    (1 - (0 : ℚ)) * v1Mean imgC5 1 1 1 5 (2 * 1) = v1Mean imgC5 1 1 1 5 (2 * 1) ∧
    ∃ out, brightness_contrast_V1 imgC5 2 1 1 1 1 5 (some 100) = some out ∧
      ∀ i < 2 * 1, out i = v1Inter imgC5 1 1 1 5 i := by
  have hpix : ∀ i, v1Inter imgC5 1 1 1 5 i = 12 := by
    intro i
    unfold v1Inter v1GrayBright grayQnorm clampStore castU8 imgC5
    norm_num
    decide
  have hvar : v1Var imgC5 1 1 1 5 (2 * 1) = 0 := by
    unfold v1Var v1Mean v1MeanSum
    simp only [hpix, Finset.sum_range_succ, Finset.sum_range_zero]
    norm_num
  exact claim_C5_variance_zero imgC5 2 1 1 1 1 5 100 (by norm_num) (by norm_num)
    (by norm_num) hvar

/-- When every lane is at most 4080 (the worst case of eight accumulated block
adds), none of the three 16-bit shift-and-add rounds of `sum_mm_epi16` wraps,
so it returns the exact sum of the eight lanes. -/
lemma sum_mm_epi16_eq (v : Fin 8 → ℕ) (hv : ∀ j, v j ≤ 4080) :
    sum_mm_epi16 v = ∑ j : Fin 8, v j := by
  have h0 := hv 0
  have h1 := hv 1
  have h2 := hv 2
  have h3 := hv 3
  have h4 := hv 4
  have h5 := hv 5
  have h6 := hv 6
  have h7 := hv 7
  simp only [sum_mm_epi16, laneAdd, shiftLanes4, shiftLanes2, shiftLanes1,
    Matrix.cons_val_zero, Matrix.cons_val_one, Matrix.head_cons,
    Matrix.cons_val_two, Matrix.cons_val_three, Matrix.tail_cons,
    Fin.sum_univ_eight]
  omega

/-- One 16-pixel block splits as the eight grey1 pixels plus the eight grey2
pixels. -/
lemma block_sum (g : ℕ → ℕ) (m : ℕ) :
    ∑ i ∈ Finset.range 16, g (m + i)
      = (∑ j : Fin 8, g (m + (j : ℕ))) + ∑ j : Fin 8, g (m + 8 + (j : ℕ)) := by
  rw [Fin.sum_univ_eq_sum_range (fun j => g (m + j)) 8,
    Fin.sum_univ_eq_sum_range (fun j => g (m + 8 + j)) 8,
    show (16 : ℕ) = 8 + 8 from rfl, Finset.sum_range_add]
  simp [Nat.add_assoc]

/-- Invariant of V0's SIMD mean accumulation: after `k` blocks every 16-bit
lane of `mean_vector` holds at most `510 * ((k-1) % 8)` (the exact sum of the
unflushed block contributions, at most 7 of them), and the flushed wide
accumulator plus the pending lanes equal the exact sum of all lane values seen
so far - no 16-bit addition ever wraps. -/
lemma meanAccum_spec (g : ℕ → ℕ) :
    ∀ k, (∀ i, i < 16 * k → g i ≤ 255) →
      (∀ j, (meanAccum g k).2 j ≤ 510 * ((k - 1) % 8)) ∧
      ((meanAccum g k).1 + ∑ j : Fin 8, (meanAccum g k).2 j
        = ∑ i ∈ Finset.range (16 * k), g i)
  | 0, _ => by simp [meanAccum]
  | k + 1, hg => by
      obtain ⟨hb, hs⟩ := meanAccum_spec g k (fun i hi => hg i (by omega))
      have hm7 : (k - 1) % 8 ≤ 7 := Nat.le_of_lt_succ (Nat.mod_lt _ (by norm_num))
      have hgj1 : ∀ j : Fin 8, g (16 * k + (j : ℕ)) ≤ 255 := fun j => by
        have hj := j.isLt
        exact hg _ (by omega)
      have hgj2 : ∀ j : Fin 8, g (16 * k + 8 + (j : ℕ)) ≤ 255 := fun j => by
        have hj := j.isLt
        exact hg _ (by omega)
      have hlane : ∀ j : Fin 8,
          (((meanAccum g k).2 j + g (16 * k + (j : ℕ))) % 65536
              + g (16 * k + 8 + (j : ℕ))) % 65536
            = (meanAccum g k).2 j + g (16 * k + (j : ℕ)) + g (16 * k + 8 + (j : ℕ)) := by
        intro j
        have hbj := hb j
        have h1 := hgj1 j
        have h2 := hgj2 j
        omega
      have hLsum : ∑ j : Fin 8,
            (((meanAccum g k).2 j + g (16 * k + (j : ℕ))) % 65536
              + g (16 * k + 8 + (j : ℕ))) % 65536
          = (∑ j : Fin 8, (meanAccum g k).2 j)
            + ((∑ j : Fin 8, g (16 * k + (j : ℕ)))
              + ∑ j : Fin 8, g (16 * k + 8 + (j : ℕ))) := by
        rw [Finset.sum_congr rfl (fun j _ => hlane j)]
        rw [Finset.sum_add_distrib, Finset.sum_add_distrib]
        ring
      have hrange : ∑ i ∈ Finset.range (16 * (k + 1)), g i
          = (∑ i ∈ Finset.range (16 * k), g i)
            + ((∑ j : Fin 8, g (16 * k + (j : ℕ)))
              + ∑ j : Fin 8, g (16 * k + 8 + (j : ℕ))) := by
        rw [show 16 * (k + 1) = 16 * k + 16 by ring, Finset.sum_range_add,
          block_sum g (16 * k)]
      show (∀ j, (meanBlockStep g k (meanAccum g k)).2 j ≤ 510 * ((k + 1 - 1) % 8)) ∧
        ((meanBlockStep g k (meanAccum g k)).1
            + ∑ j : Fin 8, (meanBlockStep g k (meanAccum g k)).2 j
          = ∑ i ∈ Finset.range (16 * (k + 1)), g i)
      unfold meanBlockStep
      by_cases hk : (16 * k) % 128 = 0
      · rw [if_pos hk]
        dsimp only
        constructor
        · intro j
          exact Nat.zero_le _
        · have h4080 : ∀ j : Fin 8,
              (((meanAccum g k).2 j + g (16 * k + (j : ℕ))) % 65536
                + g (16 * k + 8 + (j : ℕ))) % 65536 ≤ 4080 := by
            intro j
            have hbj := hb j
            have h1 := hgj1 j
            have h2 := hgj2 j
            omega
          rw [sum_mm_epi16_eq _ h4080]
          simp only [Finset.sum_const_zero, Nat.add_zero]
          rw [hLsum, hrange, ← hs]
          ring
      · rw [if_neg hk]
        dsimp only
        have hk8 : k % 8 ≠ 0 := by omega
        constructor
        · intro j
          rw [hlane j]
          have hbj := hb j
          have h1 := hgj1 j
          have h2 := hgj2 j
          have he : (k + 1 - 1) % 8 = (k - 1) % 8 + 1 := by omega
          rw [he]
          omega
        · rw [hLsum, hrange, ← hs]
          ring

/-- C9: over any grayscale lane values bounded by 255, the SIMD mean
accumulation of `brightness_contrast_V0` (partial 16-bit lane sums flushed into
the wide accumulator whenever the pixel index `16*k` satisfies
`i % 128 == 0`) keeps every lane at most 4080 = 8 blocks * 2 values * 255,
within the signed 16-bit range, and therefore the accumulated mean sum equals
the exact integer sum of all 16*nb lane values. -/
theorem claim_C9_simd_mean_exact (g : ℕ → ℕ) (nb : ℕ)
    (hg : ∀ i, i < 16 * nb → g i ≤ 255) :
    (∀ k, k ≤ nb → ∀ j, (meanAccum g k).2 j ≤ 4080) ∧
    v0MeanSumSimd g nb = ∑ i ∈ Finset.range (16 * nb), g i := by
  constructor
  · intro k hk j
    have h := (meanAccum_spec g k (fun i hi => hg i (by omega))).1 j
    have hm7 : (k - 1) % 8 ≤ 7 := Nat.le_of_lt_succ (Nat.mod_lt _ (by norm_num))
    omega
  · obtain ⟨hb, hs⟩ := meanAccum_spec g nb hg
    have h4080 : ∀ j, (meanAccum g nb).2 j ≤ 4080 := by
      intro j
      have h := hb j
      have hm7 : (nb - 1) % 8 ≤ 7 := Nat.le_of_lt_succ (Nat.mod_lt _ (by norm_num))
      omega
    unfold v0MeanSumSimd
    rw [sum_mm_epi16_eq _ h4080]
    exact hs

/-- Witness for C9: nine constant-255 blocks (one flush boundary crossed). -/
theorem claim_C9_witness :
    (∀ k, k ≤ 9 → ∀ j, (meanAccum (fun _ : ℕ => (255 : ℕ)) k).2 j ≤ 4080) ∧
    v0MeanSumSimd (fun _ : ℕ => (255 : ℕ)) 9
      = ∑ i ∈ Finset.range (16 * 9), (fun _ : ℕ => (255 : ℕ)) i :=
  claim_C9_simd_mean_exact (fun _ : ℕ => (255 : ℕ)) 9 (fun _ _ => le_refl 255)

end ImageConversion
